import Mathlib

/-!
Verification of the PureLogicCompiler schema compiler.

This file shallowly embeds the core pipeline of the repository
(`classes/pl_types.py`, `classes/database_schema_builder.py`,
`classes/sql_builder.py`): the schema data model, the attribute-line
grammar (the regular expressions are translated into character-list
matchers with the same backtracking behaviour), incremental loading,
foreign-key resolution, the relationship classifier and the DDL emitter.
Strings are modelled at the `List Char` level where symbolic reasoning is
needed; Python regex `\w` is modelled as ASCII letters, digits and
underscore, which covers the identifiers this compiler is given.
Python's in-place mutation of `Field.type` during resolution is modelled
by explicit state passing: foreign keys carry the index of their
containing table and of their backing field, and resolution rewrites the
table list, exactly mirroring the aliasing in the source.
-/

set_option maxHeartbeats 1000000

namespace PureLogic

deriving instance DecidableEq for Except

/-- Python regex word character (`\w`) for the ASCII inputs this compiler
handles: letters, digits and underscore. -/
def isWordChar (c : Char) : Bool :=
  c.isAlphanum || c = '_'

/-- Python `str.startswith('$')`. -/
def startsWithDollar (s : String) : Bool :=
  match s.data with
  | '$' :: _ => true
  | _ => false

/-- Strip leading and trailing whitespace from a character list. -/
def trimChars (cs : List Char) : List Char :=
  ((cs.dropWhile Char.isWhitespace).reverse.dropWhile Char.isWhitespace).reverse

/-- Python `str.strip()`. -/
def pyStrip (s : String) : String :=
  String.mk (trimChars s.data)

/-- Split a character list on a separator character (the separators are
dropped; n separators yield n+1 pieces). -/
def splitOnChar (sep : Char) : List Char → List (List Char)
  | [] => [[]]
  | c :: rest =>
    let r := splitOnChar sep rest
    if c = sep then [] :: r
    else
      match r with
      | h :: t => (c :: h) :: t
      | [] => [[c]]

/-- `UniqueType` (pl_types.py). -/
inductive UniqueType where
  | NOT_UNIQUE
  | UNIQUE
  | STRICT_UNIQUE
  | PRIMARY_KEY
deriving DecidableEq

/-- `OnDeleteAction` (pl_types.py). -/
inductive OnDeleteAction where
  | NO_ACTION
  | SET_NULL
  | CASCADE
deriving DecidableEq

/-- `Field` (pl_types.py). -/
structure Field where
  name : String
  uniqueness : UniqueType
  type : String
  is_optional : Bool
  is_computed : Bool
  default : Option String
  comment : Option String
deriving DecidableEq

/-- A YAML attribute value as handed to `_parse_attribute`: either a plain
string or a native list of field-name strings. -/
inductive AttrValue where
  | str (s : String)
  | list (l : List String)
deriving DecidableEq

/-- `ComplexUniqueness` (pl_types.py). -/
structure ComplexUniqueness where
  fields : List String
  uniqueness : UniqueType
deriving DecidableEq

/-- `Table` (pl_types.py).  `checks` holds the raw attribute values the
source appends verbatim (`table.checks.append(value)` performs no type
check, so a list value would be stored as-is). -/
structure Table where
  pg_schema : String
  name : String
  fields : List Field
  complex_uniqueness : List ComplexUniqueness
  checks : List AttrValue
deriving DecidableEq

/-- `Table.full_name` (pl_types.py). -/
def Table.full_name (t : Table) : String :=
  t.pg_schema ++ "." ++ t.name

/-- The schema-definition errors (`ValueError`s) the source can raise, one
constructor per distinct raise site, carrying the data that the source
interpolates into the message.  `notAString` models the `TypeError` Python
raises when a field attribute's value is a YAML list (`re.search` applied
to a list).  `refPkAmbiguous` covers both raise sites that share the
message about more than one pk (composite rule present, or a second
primary-key field found). -/
inductive PLError where
  | badRuleValue (rule tableFullName : String)
  | unknownRule (name tableFullName : String)
  | badFieldName (name tableFullName : String)
  | notAString (name tableFullName : String)
  | unknownAttribute (name value : String)
  | badTableName (key : String)
  | fkUnresolved (containingFullName refSchema refName : String)
  | refPkAmbiguous (tableFullName : String)
  | refPkMissing (tableFullName : String)
  | notUniqueSql
  | badSchemaName (schema : String)
  | badTypeFormat (fieldName : String)
  | unknownType (typeName fieldName : String)
deriving DecidableEq

/-- The matched `uniqueness` group text of the attribute grammars:
`pk`, `uq` or `uq!`. -/
inductive UniqTok where
  | pk
  | uq
  | uqStrict
deriving DecidableEq

/-- The literal text of a uniqueness keyword as it appears in the input. -/
def UniqTok.text : UniqTok → String
  | .pk => "pk"
  | .uq => "uq"
  | .uqStrict => "uq!"

/-- `UNIQUENESS_TEXT_TO_TYPE` (database_schema_builder.py lines 292-297). -/
def uniquenessTextToType : Option UniqTok → UniqueType
  | some .pk => UniqueType.PRIMARY_KEY
  | some .uq => UniqueType.UNIQUE
  | some .uqStrict => UniqueType.STRICT_UNIQUE
  | none => UniqueType.NOT_UNIQUE

/-- Prefix match of `TABLE_PATTERN` = `(?:(?P<schema>\w+)\.)?(?P<table>\w+)`
(database_schema_builder.py lines 299-302), as used by `re.match`: a greedy
`\w+` run can only be followed by `.` at its maximal extent, so the regex
backtracking collapses to: take the maximal word run; if a dot and a
further nonempty word run follow they are schema and table, otherwise the
first run alone is the table.  Trailing text is left unmatched (and thus
silently discarded by `_parse_schema`). -/
def matchTableKey (key : String) : Option (Option String × String) :=
  let cs := key.data
  let w1 := cs.takeWhile isWordChar
  if w1.isEmpty then none
  else
    match cs.drop w1.length with
    | '.' :: rest2 =>
      let w2 := rest2.takeWhile isWordChar
      if w2.isEmpty then some (none, String.mk w1)
      else some (some (String.mk w1), String.mk w2)
    | _ => some (none, String.mk w1)

/-- Full match of the optional rule-name suffix `(?:_\w*)?` against the
whole remainder. -/
def ruleSuffixOk : List Char → Bool
  | [] => true
  | '_' :: rest => rest.all isWordChar
  | _ => false

/-- Full match of `UNIQUENESS_FIELD_PATTERN` =
`\$(?P<uniqueness>pk|uq!|uq)(?:_\w*)?` (lines 304-307), with the
alternatives tried in the pattern's order. -/
def matchUniquenessField (name : String) : Option UniqTok :=
  match name.data with
  | '$' :: rest =>
    if rest.take 2 = ['p', 'k'] ∧ ruleSuffixOk (rest.drop 2) = true then some .pk
    else if rest.take 3 = ['u', 'q', '!'] ∧ ruleSuffixOk (rest.drop 3) = true then some .uqStrict
    else if rest.take 2 = ['u', 'q'] ∧ ruleSuffixOk (rest.drop 2) = true then some .uq
    else none
  | _ => none

/-- Full match of `CHECK_FIELD_PATTERN` = `\$check(?:_\w*)?`
(lines 309-312). -/
def matchCheckField (name : String) : Bool :=
  match name.data with
  | '$' :: 'c' :: 'h' :: 'e' :: 'c' :: 'k' :: rest => ruleSuffixOk rest
  | _ => false

/-- `re.search(COMMENT_PATTERN, value)` with `COMMENT_PATTERN` =
`--(?P<comment>.*)` (lines 314-317; `re.VERBOSE` discards the space in
the pattern source): split the single-line value at the first `--`,
returning the text before the marker and the comment group after it, or
`none` when the value holds no `--`. -/
def splitComment : List Char → Option (List Char × List Char)
  | [] => none
  | c :: rest =>
    if c = '-' ∧ rest.head? = some '-' then
      some ([], rest.drop 1)
    else
      match splitComment rest with
      | some (before, com) => some (c :: before, com)
      | none => none

/-- Full match of `\s*\d+\s*`: one comma-separated piece of a precision
group. -/
def wsDigitsWs (cs : List Char) : Bool :=
  let t := cs.dropWhile Char.isWhitespace
  let ds := t.takeWhile Char.isDigit
  decide (¬ ds.isEmpty) && (t.drop ds.length).all Char.isWhitespace

/-- Parse of the precision suffix `\(\s*\d+(?:\s*,\s*\d+)*\s*\)` starting
at an opening parenthesis.  The parenthesised region necessarily runs to
the first `)` (no alternative can contain one), and the region matches the
pattern exactly when each of its comma-separated pieces is `\s*\d+\s*`.
Returns the matched text (parentheses included) and the remainder. -/
def matchPrecision : List Char → Option (List Char × List Char)
  | '(' :: rest =>
    let inner := rest.takeWhile (fun c => decide (c ≠ ')'))
    match rest.drop inner.length with
    | ')' :: rest2 =>
      if (splitOnChar ',' inner).all wsDigitsWs then
        some ('(' :: inner ++ [')'], rest2)
      else none
    | _ => none
  | _ => none

/-- The result groups of a `FIELD_PATTERN` full match. -/
structure FieldMatch where
  uniqueness : Option UniqTok
  type : String
  is_optional : Bool
  is_computed : Bool
  default : Option String
deriving DecidableEq

/-- Match of everything in `FIELD_PATTERN` (lines 319-325) after the
optional uniqueness keyword:
`(?P<type>\w+(?:\(..\))?)(?P<is_optional>\?)?(?:\s*(?P<is_computed>:)?=\s*(?P<default>.*)\s*)?`
against the whole remainder.  The `default` group is the text after the
`=` with its leading whitespace removed by the greedy `\s*` (the group
itself keeps any trailing whitespace; the builder strips it later). -/
def matchFieldTail (u : Option UniqTok) (ty rest : List Char) : Option FieldMatch :=
  let p := match rest with
    | '?' :: r => (true, r)
    | _ => (false, rest)
  if p.2.isEmpty then
    some ⟨u, String.mk ty, p.1, false, none⟩
  else
    match p.2.dropWhile Char.isWhitespace with
    | ':' :: '=' :: r3 => some ⟨u, String.mk ty, p.1, true,
        some (String.mk (r3.dropWhile Char.isWhitespace))⟩
    | '=' :: r3 => some ⟨u, String.mk ty, p.1, false,
        some (String.mk (r3.dropWhile Char.isWhitespace))⟩
    | _ => none

/-- The type token of `FIELD_PATTERN`: a word run, then (only if an `(`
immediately follows) a mandatory well-formed precision group — when the
`(` is present but malformed, no other pattern part can consume it, so the
whole match fails, exactly as the regex backtracking concludes. -/
def matchFieldRest (cs : List Char) (u : Option UniqTok) : Option FieldMatch :=
  let w := cs.takeWhile isWordChar
  if w.isEmpty then none
  else
    match cs.drop w.length with
    | '(' :: r =>
      match matchPrecision ('(' :: r) with
      | some (prec, rest) => matchFieldTail u (w ++ prec) rest
      | none => none
    | afterW => matchFieldTail u w afterW

/-- The candidate ways the optional leading
`(?:(?P<uniqueness>pk|uq!|uq)\s+)?` of `FIELD_PATTERN` and
`FOREIGN_KEY_PATTERN` can consume a prefix of the value: keyword plus a
maximal nonempty whitespace run (`\s+` can only be maximal, since the next
pattern token never matches whitespace).  Produces zero or one candidate. -/
def uniqKeywordCandidate (cs : List Char) (u : UniqTok) :
    List (Option UniqTok × List Char) :=
  let kw := u.text.data
  if cs.take kw.length = kw then
    let rest := cs.drop kw.length
    let ws := rest.takeWhile Char.isWhitespace
    if ws.isEmpty then [] else [(some u, rest.drop ws.length)]
  else []

/-- All alternatives for the optional uniqueness keyword, in the order the
regex tries them (`pk`, `uq!`, `uq`, then the empty option). -/
def uniqCandidates (cs : List Char) : List (Option UniqTok × List Char) :=
  uniqKeywordCandidate cs UniqTok.pk ++ uniqKeywordCandidate cs UniqTok.uqStrict ++
    uniqKeywordCandidate cs UniqTok.uq ++ [(none, cs)]

/-- First alternative that succeeds — the regex backtracking order. -/
def firstSome {α β : Type} (f : α → Option β) : List α → Option β
  | [] => none
  | a :: rest =>
    match f a with
    | some b => some b
    | none => firstSome f rest

/-- Full match of `FIELD_PATTERN` (lines 319-325). -/
def matchField (value : String) : Option FieldMatch :=
  firstSome (fun p => matchFieldRest p.2 p.1) (uniqCandidates value.data)

/-- The result groups of a `FOREIGN_KEY_PATTERN` full match. -/
structure ForeignKeyMatch where
  uniqueness : Option UniqTok
  schema : Option String
  table : String
  is_optional : Bool
  is_cascade : Bool
deriving DecidableEq

/-- The optional trailing marker `(?:(?P<is_optional>\?)|(?P<is_cascade>!))?`
matched against the whole remainder. -/
def fkTail : List Char → Option (Bool × Bool)
  | [] => some (false, false)
  | ['?'] => some (true, false)
  | ['!'] => some (false, true)
  | _ => none

/-- Match of everything in `FOREIGN_KEY_PATTERN` (lines 327-332) after the
optional uniqueness keyword:
`fk\s+(?:(?P<schema>\w+)\.)?(?P<table>\w+)(?:(\?)|(!))?`.
When a dot follows the first word run but the schema branch fails, the
regex falls back to the schema-less branch, which then cannot consume the
dot either — so the failure is final, as encoded here. -/
def matchForeignKeyRest (cs : List Char) (u : Option UniqTok) :
    Option ForeignKeyMatch :=
  match cs with
  | 'f' :: 'k' :: rest =>
    let ws := rest.takeWhile Char.isWhitespace
    if ws.isEmpty then none
    else
      let cs1 := rest.drop ws.length
      let w1 := cs1.takeWhile isWordChar
      if w1.isEmpty then none
      else
        match cs1.drop w1.length with
        | '.' :: cs2 =>
          let w2 := cs2.takeWhile isWordChar
          if w2.isEmpty then none
          else
            match fkTail (cs2.drop w2.length) with
            | some oc => some ⟨u, some (String.mk w1), String.mk w2, oc.1, oc.2⟩
            | none => none
        | tail =>
          match fkTail tail with
          | some oc => some ⟨u, none, String.mk w1, oc.1, oc.2⟩
          | none => none
  | _ => none

/-- Full match of `FOREIGN_KEY_PATTERN` (lines 327-332). -/
def matchForeignKey (value : String) : Option ForeignKeyMatch :=
  firstSome (fun p => matchForeignKeyRest p.2 p.1) (uniqCandidates value.data)

/-- Full match of `VALID_SCHEMA_PATTERN` = `\w+` (sql_builder.py
lines 14-17), also used for field-name validation in `_parse_attribute`. -/
def fullmatchWord (s : String) : Bool :=
  decide (¬ s.data.isEmpty) && s.data.all isWordChar

/-- Full match of `TYPE_PRECISION_PATTERN` =
`(?P<type>\w+)(?P<precision>\(..\))?` (sql_builder.py lines 18-21):
base type word and precision text (empty when the group is absent,
mirroring `match.group('precision') or ''`). -/
def matchTypePrecision (s : String) : Option (String × String) :=
  let cs := s.data
  let w := cs.takeWhile isWordChar
  if w.isEmpty then none
  else
    match cs.drop w.length with
    | [] => some (String.mk w, "")
    | '(' :: r =>
      match matchPrecision ('(' :: r) with
      | some (prec, []) => some (String.mk w, String.mk prec)
      | _ => none
    | _ => none

/-- The field-scanning loop of `Table.get_reference_pk` (pl_types.py
lines 67-75), carrying the primary-key field found so far; a second
primary-key field raises immediately. -/
def referencePkLoop (tableFullName : String) :
    List Field → Option Field → Except PLError Field
  | [], none => .error (.refPkMissing tableFullName)
  | [], some pk => .ok pk
  | f :: rest, acc =>
    if f.uniqueness ≠ UniqueType.PRIMARY_KEY then
      referencePkLoop tableFullName rest acc
    else
      match acc with
      | some _ => .error (.refPkAmbiguous tableFullName)
      | none => referencePkLoop tableFullName rest (some f)

/-- `Table.get_reference_pk` (pl_types.py lines 60-81): a composite
primary-key rule is rejected first (the `in` membership test over the
rule uniqueness kinds), then the fields are scanned for exactly one
primary-key field. -/
def Table.get_reference_pk (t : Table) : Except PLError Field :=
  if t.complex_uniqueness.any (fun cu => decide (cu.uniqueness = UniqueType.PRIMARY_KEY)) then
    .error (.refPkAmbiguous t.full_name)
  else
    referencePkLoop t.full_name t.fields none

/-- A pending foreign key as accumulated by the builder.  The source's
`ForeignKey` holds live references to its containing table and backing
field, which the resolve step later mutates in place; the embedding
identifies them by the index the containing table will occupy in
`_tables` and the index of the field inside that table, so the mutation
becomes explicit state passing. -/
structure FKRef where
  referenced_schema : String
  referenced_name : String
  containing_table : Nat
  field_index : Nat
  on_delete : OnDeleteAction
deriving DecidableEq

/-- A pending `Index` entry, with the containing table identified by
index. -/
structure IndexRef where
  table : Nat
  field : String
deriving DecidableEq

/-- The mutable state of `DatabaseSchemaBuilder`
(database_schema_builder.py lines 13-18). -/
structure BuilderState where
  add_fk_indexes : Bool
  foreign_keys : List FKRef
  indexes : List IndexRef
  tables : List Table
deriving DecidableEq

/-- `DatabaseSchemaBuilder.__init__`. -/
def initState (add_fk_indexes : Bool) : BuilderState :=
  ⟨add_fk_indexes, [], [], []⟩

/-- `DatabaseSchemaBuilder._parse_attribute` (lines 20-109).  `tableIdx`
is the index the table currently being parsed will occupy in `_tables`.
The `notAString` arm models the `TypeError` Python raises at
`re.search(COMMENT_PATTERN, value)` when the value of a plain field entry
is a YAML list instead of a string. -/
def parseAttribute (st : BuilderState) (tableIdx : Nat) (table : Table)
    (name : String) (value : AttrValue) : Except PLError (Table × BuilderState) :=
  match matchUniquenessField name with
  | some u =>
    match value with
    | .list l =>
      .ok ({ table with complex_uniqueness :=
              table.complex_uniqueness ++ [⟨l, uniquenessTextToType (some u)⟩] }, st)
    | .str _ => .error (.badRuleValue u.text table.full_name)
  | none =>
  if matchCheckField name then
    .ok ({ table with checks := table.checks ++ [value] }, st)
  else if startsWithDollar name then
    .error (.unknownRule name table.full_name)
  else if ¬ fullmatchWord name then
    .error (.badFieldName name table.full_name)
  else
    match value with
    | .list _ => .error (.notAString name table.full_name)
    | .str rawValue =>
      let vc : String × Option String :=
        match splitComment rawValue.data with
        | some (before, com) => (pyStrip (String.mk before), some (pyStrip (String.mk com)))
        | none => (rawValue, none)
      match matchField vc.1 with
      | some m =>
        let d : Option String := match m.default with
          | none => none
          | some s => if s ≠ "" then some (pyStrip s) else some s
        .ok ({ table with fields := table.fields ++
                [⟨name, uniquenessTextToType m.uniqueness, m.type,
                  m.is_optional, m.is_computed, d, vc.2⟩] }, st)
      | none =>
      match matchForeignKey vc.1 with
      | some m =>
        let field : Field :=
          ⟨name, uniquenessTextToType m.uniqueness, "", m.is_optional, false, none, vc.2⟩
        let action : OnDeleteAction :=
          if m.is_cascade then .CASCADE
          else if m.is_optional then .SET_NULL
          else .NO_ACTION
        let fk : FKRef :=
          ⟨m.schema.getD "public", m.table, tableIdx, table.fields.length, action⟩
        let st1 := { st with foreign_keys := st.foreign_keys ++ [fk] }
        let table1 := { table with fields := table.fields ++ [field] }
        if ¬ st.add_fk_indexes ∨ field.uniqueness ≠ UniqueType.NOT_UNIQUE then
          .ok (table1, st1)
        else
          .ok (table1, { st1 with indexes := st1.indexes ++ [⟨tableIdx, field.name⟩] })
      | none => .error (.unknownAttribute name vc.1)

/-- The attribute loop of `_parse_table` (lines 120-121). -/
def parseTableLoop (tableIdx : Nat) :
    List (String × AttrValue) → Table → BuilderState →
      Except PLError (Table × BuilderState)
  | [], table, st => .ok (table, st)
  | (n, v) :: rest, table, st =>
    match parseAttribute st tableIdx table n v with
    | .error e => .error e
    | .ok ts => parseTableLoop tableIdx rest ts.1 ts.2

/-- `_parse_table` (lines 111-123): create the empty table, fold the
attributes through `_parse_attribute`, then append the finished table to
`_tables`. -/
def parseTable (st : BuilderState) (schema name : String)
    (attributes : List (String × AttrValue)) : Except PLError BuilderState :=
  match parseTableLoop st.tables.length attributes ⟨schema, name, [], [], []⟩ st with
  | .error e => .error e
  | .ok ts => .ok { ts.2 with tables := ts.2.tables ++ [ts.1] }

/-- `_parse_schema` (lines 143-158): directive keys starting with `$` are
skipped; other keys are prefix-matched against `TABLE_PATTERN` with
default schema `public`. -/
def parseSchema (st : BuilderState) :
    List (String × List (String × AttrValue)) → Except PLError BuilderState
  | [] => .ok st
  | (key, data) :: rest =>
    if startsWithDollar key then parseSchema st rest
    else
      match matchTableKey key with
      | none => .error (.badTableName key)
      | some sn =>
        match parseTable st (sn.1.getD "public") sn.2 data with
        | .error e => .error e
        | .ok st1 => parseSchema st1 rest

/-- `partial_load` (lines 160-175): the YAML text is decoded by the
external structured-document parser (out of scope per the spec); the
embedding takes the resulting mapping directly and runs `_parse_schema`
on it. -/
def partialLoad (st : BuilderState)
    (doc : List (String × List (String × AttrValue))) : Except PLError BuilderState :=
  parseSchema st doc

/-- Placeholder for out-of-range list access (unreachable on the states
the builder actually produces). -/
def dummyTable : Table := ⟨"", "", [], [], []⟩

/-- Placeholder field for out-of-range access. -/
def dummyField : Field := ⟨"", UniqueType.NOT_UNIQUE, "", false, false, none, none⟩

/-- The table object a stored table index refers to. -/
def tableAt (tables : List Table) (i : Nat) : Table :=
  (tables.get? i).getD dummyTable

/-- The field object a stored field index refers to. -/
def fieldAt (t : Table) (j : Nat) : Field :=
  (t.fields.get? j).getD dummyField

/-- In-place update of the element at an index (identity when out of
range), modelling Python attribute mutation through an object
reference. -/
def modifyNth {α : Type} (f : α → α) : Nat → List α → List α
  | _, [] => []
  | 0, a :: as => f a :: as
  | n + 1, a :: as => a :: modifyNth f n as

/-- `fk.field.type = pk.type` (line 141): rewrite the type of field `fi`
of table `ti`. -/
def setFieldType (tables : List Table) (ti fi : Nat) (ty : String) : List Table :=
  modifyNth
    (fun t => { t with fields := modifyNth (fun f => { f with type := ty }) fi t.fields })
    ti tables

/-- The scan of `findTable`, carrying the position of the list head. -/
def findTableFrom (sch nm : String) : Nat → List Table → Option (Nat × Table)
  | _, [] => none
  | i, t :: rest =>
    if t.pg_schema = sch ∧ t.name = nm then some (i, t)
    else findTableFrom sch nm (i + 1) rest

/-- `next(t for t in self._tables if t.pg_schema == .. and t.name == ..)`
(lines 128-132): the first table whose (schema, name) key matches,
together with its position. -/
def findTable (tables : List Table) (sch nm : String) : Option (Nat × Table) :=
  findTableFrom sch nm 0 tables

/-- `_resolve_foreign_keys` (lines 125-141), with the in-place
`fk.referenced_table = table; fk.field.type = pk.type` modelled by
threading the table list and recording each resolved table's index. -/
def resolveAll (tables : List Table) :
    List FKRef → Except PLError (List Table × List (FKRef × Nat))
  | [] => .ok (tables, [])
  | fk :: rest =>
    match findTable tables fk.referenced_schema fk.referenced_name with
    | none =>
      .error (.fkUnresolved (tableAt tables fk.containing_table).full_name
        fk.referenced_schema fk.referenced_name)
    | some it =>
      match it.2.get_reference_pk with
      | .error e => .error e
      | .ok pk =>
        match resolveAll (setFieldType tables fk.containing_table fk.field_index pk.type) rest with
        | .error e => .error e
        | .ok ta => .ok (ta.1, (fk, it.1) :: ta.2)

/-- `ForeignKey` (pl_types.py lines 84-95) in its post-resolution form:
`referenced_table` is set, and every referenced object is taken from the
final state of the table list, exactly what the live Python references
show after `finalize` returns. -/
structure ResolvedFK where
  referenced_schema : String
  referenced_name : String
  referenced_table : Table
  containing_table : Table
  field : Field
  on_delete : OnDeleteAction
deriving DecidableEq

/-- `Index` (pl_types.py lines 98-100) with its table materialized. -/
structure Index where
  table : Table
  field : String
deriving DecidableEq

/-- `DbSchema` (pl_types.py lines 103-106). -/
structure DbSchema where
  foreign_keys : List ResolvedFK
  indexes : List Index
  tables : List Table
deriving DecidableEq

/-- Turn a resolved builder foreign key into the value its live Python
references denote after `finalize`. -/
def materializeFK (tables : List Table) (p : FKRef × Nat) : ResolvedFK :=
  ⟨p.1.referenced_schema, p.1.referenced_name, tableAt tables p.2,
   tableAt tables p.1.containing_table,
   fieldAt (tableAt tables p.1.containing_table) p.1.field_index,
   p.1.on_delete⟩

/-- `finalize` (lines 177-183): run the resolve step once and expose the
final object graph by value. -/
def finalize (st : BuilderState) : Except PLError DbSchema :=
  match resolveAll st.tables st.foreign_keys with
  | .error e => .error e
  | .ok ta =>
    .ok ⟨ta.2.map (materializeFK ta.1),
         st.indexes.map (fun ix => ⟨tableAt ta.1 ix.table, ix.field⟩),
         ta.1⟩

/-- The 3-bit cardinality code computed in `_is_mid_in_m2m` and
`get_connections` (lines 213-218 and 255-258):
`4*(field not unique) + 2*(anchor is the referenced side) + (field
optional)`.  Python compares pydantic models by field-wise value
equality, which structural equality mirrors. -/
def connCode (fk : ResolvedFK) (table : Table) : Nat :=
  (if fk.field.uniqueness = UniqueType.NOT_UNIQUE then 4 else 0) +
  (if table = fk.referenced_table then 2 else 0) +
  (if fk.field.is_optional then 1 else 0)

/-- The touching filter of `_is_mid_in_m2m` (lines 202-206): the foreign
key has the table as container or as target. -/
def touches (fk : ResolvedFK) (table : Table) : Bool :=
  decide (fk.containing_table = table ∨ fk.referenced_table = table)

/-- `_is_mid_in_m2m` (lines 189-226): exactly two foreign keys touch the
candidate and each classifies as `MANY_TO_EVERY` (code 4) with the
candidate as anchor; the result pairs the two referenced tables in
order. -/
def isMidInM2m (fks : List ResolvedFK) (table : Table) : Option (Table × Table) :=
  match fks.filter (fun fk => touches fk table) with
  | [fk1, fk2] =>
    if connCode fk1 table = 4 ∧ connCode fk2 table = 4 then
      some (fk1.referenced_table, fk2.referenced_table)
    else none
  | _ => none

/-- The discovery loop of `get_connections` (lines 245-275), before
sorting.  The result `none` models the `ValueError` that Python's
`list.remove` would raise if the anchor table were in neither endpoint
slot of a detected junction. -/
def discoverConnections (fks : List ResolvedFK) (table : Table) :
    List ResolvedFK → Option (List (Nat × Table × Option Table))
  | [] => some []
  | fk :: rest =>
    if table = fk.containing_table ∨ table = fk.referenced_table then
      let ref := if table = fk.containing_table then fk.referenced_table
                 else fk.containing_table
      let code := connCode fk table
      let entry : Option (Nat × Table × Option Table) :=
        if code = 6 then
          match isMidInM2m fks ref with
          | some tt =>
            if tt.1 = table then some (8, tt.2, some ref)
            else if tt.2 = table then some (8, tt.1, some ref)
            else none
          | none => some (code, ref, none)
        else some (code, ref, none)
      match entry with
      | none => none
      | some en =>
        match discoverConnections fks table rest with
        | some l => some (en :: l)
        | none => none
    else
      discoverConnections fks table rest

/-- `CONNECTION_ORDER_TO_SYMBOL` (lines 285-289). -/
def CONNECTION_ORDER_TO_SYMBOL : List String :=
  ["o-", "oo", "-o", "oo", ">-", ">o", "-<", "o<", "><"]

/-- Stable insertion by ascending code: the element passes over entries
with a strictly smaller code and lands in front of the first entry whose
code is greater or equal. -/
def insertByCode (a : Nat × Table × Option Table) :
    List (Nat × Table × Option Table) → List (Nat × Table × Option Table)
  | [] => [a]
  | b :: bs => if a.1 ≤ b.1 then a :: b :: bs else b :: insertByCode a bs

/-- `connections.sort(key=lambda x: x[0])` (line 277): Python's sort is
stable and orders by the numeric code alone; a stable sort by a total
preorder has a unique result, so this stable insertion sort computes
exactly the list the source produces. -/
def sortConnections : List (Nat × Table × Option Table) →
    List (Nat × Table × Option Table)
  | [] => []
  | a :: as => insertByCode a (sortConnections as)

/-- `get_connections` (lines 228-282): discover, stable-sort by code,
map each code to its display symbol. -/
def getConnections (fks : List ResolvedFK) (table : Table) :
    Option (List (String × Table × Option Table)) :=
  match discoverConnections fks table fks with
  | none => none
  | some l =>
    some ((sortConnections l).map
      (fun e => (CONNECTION_ORDER_TO_SYMBOL.getD e.1 "", e.2.1, e.2.2)))

/-- The `PostgreSqlBuilder` configuration (sql_builder.py lines 23-44). -/
structure EmitterConfig where
  explicit_uniques : Bool
  explicit_nulls : Bool
  restrict_types_table : Option (List (String × String))
deriving DecidableEq

/-- The constructor's default arguments. -/
def defaultConfig : EmitterConfig := ⟨false, false, none⟩

/-- `get_drop_schema_sql` (lines 46-50), validation requested (the
default, and what `get_db_sql` uses). -/
def getDropSchemaSql (schema : String) : Except PLError String :=
  if fullmatchWord schema then
    .ok ("DROP SCHEMA IF EXISTS " ++ schema ++ " CASCADE;")
  else .error (.badSchemaName schema)

/-- `get_create_schema_sql` (lines 52-56), validation requested. -/
def getCreateSchemaSql (schema : String) : Except PLError String :=
  if fullmatchWord schema then .ok ("CREATE SCHEMA " ++ schema ++ ";")
  else .error (.badSchemaName schema)

/-- `get_uniqueness_sql` (lines 58-73). -/
def getUniquenessSql (cfg : EmitterConfig) (u : UniqueType) : Except PLError String :=
  match u with
  | .NOT_UNIQUE => .error .notUniqueSql
  | .PRIMARY_KEY => .ok "PRIMARY KEY"
  | .STRICT_UNIQUE =>
    if cfg.explicit_uniques then .ok "UNIQUE NULLS DISTINCT" else .ok "UNIQUE"
  | .UNIQUE =>
    if cfg.explicit_uniques then .ok "UNIQUE NULLS NOT DISTINCT" else .ok "UNIQUE"

/-- Python truthiness of the optional restriction table
(`if not self._restrict_types_table`): `None` and the empty dict are both
falsy. -/
def restricting : Option (List (String × String)) → Bool
  | none => false
  | some l => decide (¬ l.isEmpty)

/-- dict lookup by key (keys are unique in a Python dict, so the first
match is the match). -/
def dictLookup (l : List (String × String)) (k : String) : Option String :=
  match l.find? (fun p => decide (p.1 = k)) with
  | some p => some p.2
  | none => none

/-- `get_field_type` (lines 75-91). -/
def getFieldType (cfg : EmitterConfig) (field : Field) : Except PLError String :=
  if ¬ restricting cfg.restrict_types_table then .ok field.type
  else
    match matchTypePrecision field.type with
    | none => .error (.badTypeFormat field.name)
    | some tp =>
      match dictLookup (cfg.restrict_types_table.getD []) tp.1 with
      | none => .error (.unknownType tp.1 field.name)
      | some ty => .ok (ty ++ tp.2)

/-- Python truthiness of an optional string: `None` and `''` are falsy. -/
def strTruthy : Option String → Bool
  | none => false
  | some s => decide (s ≠ "")

/-- `get_field_sql` (lines 93-115). -/
def getFieldSql (cfg : EmitterConfig) (field : Field) : Except PLError String :=
  match getFieldType cfg field with
  | .error e => .error e
  | .ok ty =>
    let items1 := [field.name, ty] ++
      (if ¬ field.is_optional then ["NOT NULL"]
       else if cfg.explicit_nulls then ["NULL"] else [])
    match (if field.uniqueness ≠ UniqueType.NOT_UNIQUE then
            (getUniquenessSql cfg field.uniqueness).map (fun u => [u])
           else .ok []) with
    | .error e => .error e
    | .ok uq =>
      let items4 := items1 ++ uq ++
        (if strTruthy field.default ∧ ¬ field.is_computed then
          ["DEFAULT " ++ field.default.getD ""]
         else []) ++
        (if strTruthy field.default ∧ field.is_computed then
          ["GENERATED ALWAYS AS (" ++ field.default.getD "" ++ ") STORED"]
         else [])
      .ok (String.intercalate " " items4)

/-- Python `str` interpolation of a checks entry in
`get_check_constraint_sql`: a string interpolates as itself, a list as
its Python repr (repr quote-escaping inside elements is not modelled; no
check expression in scope contains quotes). -/
def AttrValue.render : AttrValue → String
  | .str s => s
  | .list l =>
    "[" ++ String.intercalate ", " (l.map (fun s => "'" ++ s ++ "'")) ++ "]"

/-- `get_unique_constraint_sql` (lines 117-121). -/
def getUniqueConstraintSql (cfg : EmitterConfig) (cu : ComplexUniqueness) :
    Except PLError String :=
  match getUniquenessSql cfg cu.uniqueness with
  | .error e => .error e
  | .ok u => .ok (u ++ " (" ++ String.intercalate ", " cu.fields ++ ")")

/-- `get_check_constraint_sql` (lines 123-124). -/
def getCheckConstraintSql (v : AttrValue) : String :=
  "CHECK (" ++ v.render ++ ")"

/-- Fail-fast effectful map, mirroring Python's generator evaluation
order inside `join`. -/
def exceptMapM {α β : Type} (f : α → Except PLError β) :
    List α → Except PLError (List β)
  | [] => .ok []
  | a :: rest =>
    match f a with
    | .error e => .error e
    | .ok b =>
      match exceptMapM f rest with
      | .error e => .error e
      | .ok bs => .ok (b :: bs)

/-- `get_table_sql` (lines 126-148). -/
def getTableSql (cfg : EmitterConfig) (table : Table) : Except PLError String :=
  match exceptMapM (getFieldSql cfg) table.fields with
  | .error e => .error e
  | .ok fieldSqls =>
    match exceptMapM (getUniqueConstraintSql cfg) table.complex_uniqueness with
    | .error e => .error e
    | .ok cuSqls =>
      let attributes := fieldSqls ++ cuSqls ++ table.checks.map getCheckConstraintSql
      .ok ("CREATE TABLE " ++ table.full_name ++ " (\n" ++
        String.intercalate ",\n" (attributes.map (fun a => "    " ++ a)) ++ "\n);")

/-- `get_field_comment_sql` (lines 150-151). -/
def getFieldCommentSql (table : Table) (field : Field) : String :=
  "COMMENT ON COLUMN " ++ table.full_name ++ "." ++ field.name ++ " IS '" ++
    field.comment.getD "" ++ "';"

/-- `get_foreign_key_sql` (lines 153-167). -/
def getForeignKeySql (fk : ResolvedFK) : Except PLError String :=
  match fk.referenced_table.get_reference_pk with
  | .error e => .error e
  | .ok refPk =>
    let base := "ALTER TABLE " ++ fk.containing_table.full_name ++
      " ADD CONSTRAINT fk_" ++ fk.containing_table.pg_schema ++ "_" ++
      fk.containing_table.name ++ "_" ++ fk.field.name ++
      " FOREIGN KEY (" ++ fk.field.name ++ ") REFERENCES " ++
      fk.referenced_table.full_name ++ " (" ++ refPk.name ++ ")"
    let items := [base] ++
      (if fk.on_delete = OnDeleteAction.SET_NULL then ["ON DELETE SET NULL"]
       else if fk.on_delete = OnDeleteAction.CASCADE then ["ON DELETE CASCADE"]
       else [])
    .ok (String.intercalate " " items ++ ";")

/-- `get_index_sql` (lines 169-170); the source omits the trailing
semicolon here. -/
def getIndexSql (ix : Index) : String :=
  "CREATE INDEX ON " ++ ix.table.full_name ++ " (" ++ ix.field ++ ")"

/-- First-occurrence deduplication with an explicit seen accumulator. -/
def dedupFirstAux (seen : List String) : List String → List String
  | [] => []
  | s :: rest =>
    if s ∈ seen then dedupFirstAux seen rest
    else s :: dedupFirstAux (seen ++ [s]) rest

/-- The `set` of schema names built in `get_db_sql` (lines 175-178), in
first-occurrence order — the fixed per-process iteration order chosen for
the embedding.  CPython iterates the same set in some other fixed order
within one process; no claim below depends on which fixed order it is. -/
def dedupFirst (l : List String) : List String := dedupFirstAux [] l

/-- The per-table statements of `get_db_sql` (lines 190-202): the CREATE
TABLE statement, then the comment group when it is nonempty. -/
def tableBlock (cfg : EmitterConfig) (table : Table) : Except PLError (List String) :=
  match getTableSql cfg table with
  | .error e => .error e
  | .ok ts =>
    let comments := String.intercalate "\n"
      ((table.fields.filter (fun f => strTruthy f.comment)).map (getFieldCommentSql table))
    if comments ≠ "" then .ok [ts, comments] else .ok [ts]

/-- `get_db_sql` (lines 172-220).  The drop and create groups are
appended unconditionally (even when empty); the comment, foreign-key and
index groups are appended only when nonempty. -/
def getDbSql (cfg : EmitterConfig) (db : DbSchema) : Except PLError String :=
  let schemas := dedupFirst (db.tables.map (fun t => t.pg_schema))
  match exceptMapM getDropSchemaSql schemas with
  | .error e => .error e
  | .ok drops =>
  match exceptMapM getCreateSchemaSql schemas with
  | .error e => .error e
  | .ok creates =>
  match exceptMapM (tableBlock cfg) db.tables with
  | .error e => .error e
  | .ok tblBlocks =>
  match exceptMapM getForeignKeySql db.foreign_keys with
  | .error e => .error e
  | .ok fkSqls =>
    let fkGroup := String.intercalate "\n" fkSqls
    let ixGroup := String.intercalate "\n" (db.indexes.map getIndexSql)
    let stmts :=
      [String.intercalate "\n" drops, String.intercalate "\n" creates] ++
      tblBlocks.flatten ++
      (if fkGroup ≠ "" then [fkGroup] else []) ++
      (if ixGroup ≠ "" then [ixGroup] else [])
    .ok (String.intercalate "\n\n" stmts)

/-- Sequential `partial_load` calls on one builder, as in the docstring of
`partial_load`. -/
def loadDocs (st : BuilderState) :
    List (List (String × List (String × AttrValue))) → Except PLError BuilderState
  | [] => .ok st
  | doc :: rest =>
    match partialLoad st doc with
    | .error e => .error e
    | .ok st1 => loadDocs st1 rest

/-- Is the error the unresolvable-foreign-key error of
`_resolve_foreign_keys`? -/
def PLError.isFkUnresolved : PLError → Bool
  | .fkUnresolved _ _ _ => true
  | _ => false

/-- Is the error the invalid-table-name error of `_parse_schema`? -/
def PLError.isBadTableName : PLError → Bool
  | .badTableName _ => true
  | _ => false

/-- The errors `_parse_attribute` can raise. -/
def PLError.isParseAttrError : PLError → Bool
  | .badRuleValue _ _ => true
  | .unknownRule _ _ => true
  | .badFieldName _ _ => true
  | .notAString _ _ => true
  | .unknownAttribute _ _ => true
  | _ => false

/-- Does the string start with a word character?  (Equivalently: does
`TABLE_PATTERN` match a prefix of it.) -/
def firstIsWord (s : String) : Bool :=
  match s.data with
  | [] => false
  | c :: _ => isWordChar c

/-- The `role` document of the spec's worked foreign-key example. -/
def docRole : List (String × List (String × AttrValue)) :=
  [("role", [("id", .str "pk uuid")])]

/-- The `user` document of the spec's worked foreign-key example. -/
def docUser : List (String × List (String × AttrValue)) :=
  [("user", [("role_id", .str "fk role?")])]

/-- The compiled schema of the worked foreign-key example. -/
def dbC5 : Except PLError DbSchema :=
  (loadDocs (initState false) [docRole, docUser]).bind finalize

/-- A document whose only foreign key references the not-yet-loaded table
`b`. -/
def docForwardA : List (String × List (String × AttrValue)) :=
  [("a", [("x", .str "fk b")])]

/-- The document that defines table `b`. -/
def docForwardB : List (String × List (String × AttrValue)) :=
  [("b", [("id", .str "pk uuid")])]

/-- A document with a junction table `j` between `a` and `b` that also
declares a composite-unique rule over both foreign-key fields. -/
def docJunction : List (String × List (String × AttrValue)) :=
  [("a", [("id", .str "pk uuid")]),
   ("b", [("id", .str "pk uuid")]),
   ("j", [("a_id", .str "fk a"), ("b_id", .str "fk b"),
          ("$uq", .list ["a_id", "b_id"])])]

/-- The compiled junction-example schema. -/
def dbJunction : Except PLError DbSchema :=
  (partialLoad (initState false) docJunction).bind finalize

/-- A document in which table `a`'s primary key is itself a foreign-key
backed field (to `b`), and table `c` references `a`; the `c → a` key is
accumulated first, so it is resolved while `a`'s primary-key field still
has the empty placeholder type. -/
def docChained : List (String × List (String × AttrValue)) :=
  [("c", [("x", .str "fk a")]),
   ("a", [("id", .str "pk fk b")]),
   ("b", [("id", .str "pk uuid")])]

/-- The compiled chained-foreign-key schema. -/
def dbChained : Except PLError DbSchema :=
  (partialLoad (initState false) docChained).bind finalize

/-- Fixture table `public.a` for classifier witnesses. -/
def tblA : Table :=
  ⟨"public", "a", [⟨"id", .PRIMARY_KEY, "uuid", false, false, none, none⟩], [], []⟩

/-- Fixture table `public.b` with a plain foreign-key field to `a`. -/
def tblB : Table :=
  ⟨"public", "b",
   [⟨"id", .PRIMARY_KEY, "uuid", false, false, none, none⟩,
    ⟨"a_id", .NOT_UNIQUE, "uuid", false, false, none, none⟩], [], []⟩

/-- Fixture resolved foreign key `b.a_id → a`. -/
def fkBA : ResolvedFK :=
  ⟨"public", "a", tblA, tblB,
   ⟨"a_id", .NOT_UNIQUE, "uuid", false, false, none, none⟩, .NO_ACTION⟩

/-- The (containing-table, field) position of a pending foreign key's
backing field. -/
def fkPos (fk : FKRef) : Nat × Nat := (fk.containing_table, fk.field_index)

/-- Every pending foreign key's stored indices are in range — true of
every state the builder actually constructs. -/
def fksInRange (tables : List Table) (fks : List FKRef) : Prop :=
  ∀ fk ∈ fks, fk.containing_table < tables.length ∧
    fk.field_index < (tableAt tables fk.containing_table).fields.length

/-- Distinct pending foreign keys back distinct fields — true of every
state the builder actually constructs, since each parsed foreign-key
attribute appends a fresh field. -/
def fksDistinctFields (fks : List FKRef) : Prop :=
  fks.Pairwise (fun f1 f2 => fkPos f1 ≠ fkPos f2)

/-- No pending foreign key backs a field that itself carries primary-key
uniqueness (no `pk fk ...` attribute anywhere). -/
def noPkFkFields (tables : List Table) (fks : List FKRef) : Prop :=
  ∀ fk ∈ fks,
    (fieldAt (tableAt tables fk.containing_table) fk.field_index).uniqueness ≠
      UniqueType.PRIMARY_KEY

/-- Two table lists of the same shape: equal lengths and, index by index,
equal schema names, table names, composite-uniqueness rules, field counts
and field uniqueness kinds — everything the resolve step can never
change. -/
def SameShape (t t' : List Table) : Prop :=
  t'.length = t.length ∧
  ∀ k, (tableAt t' k).pg_schema = (tableAt t k).pg_schema ∧
    (tableAt t' k).name = (tableAt t k).name ∧
    (tableAt t' k).complex_uniqueness = (tableAt t k).complex_uniqueness ∧
    (tableAt t' k).fields.length = (tableAt t k).fields.length ∧
    ∀ j, (fieldAt (tableAt t' k) j).uniqueness = (fieldAt (tableAt t k) j).uniqueness

/-- Fixture: table `b` as parsed, before resolution fills the type of its
foreign-key field. -/
def tblBpre : Table :=
  ⟨"public", "b", [⟨"a_id", .NOT_UNIQUE, "", false, false, none, none⟩], [], []⟩

/-- Fixture builder state: tables `a` and `b` with one pending foreign
key `b.a_id → public.a`. -/
def stWitness : BuilderState :=
  ⟨false, [⟨"public", "a", 1, 0, .NO_ACTION⟩], [], [tblA, tblBpre]⟩

/-- Fixture: table `b` after resolution has copied the `uuid` type. -/
def tblBres : Table :=
  ⟨"public", "b", [⟨"a_id", .NOT_UNIQUE, "uuid", false, false, none, none⟩], [], []⟩

/-- The schema `finalize` produces from `stWitness`. -/
def dbWitness : DbSchema :=
  ⟨[⟨"public", "a", tblA, tblBres,
     ⟨"a_id", .NOT_UNIQUE, "uuid", false, false, none, none⟩, .NO_ACTION⟩],
   [], [tblA, tblBres]⟩

theorem referencePkLoop_ok_some (nm : String) (p f : Field) :
    ∀ fs : List Field, referencePkLoop nm fs (some p) = .ok f ↔
      (p = f ∧ fs.filter (fun g => decide (g.uniqueness = UniqueType.PRIMARY_KEY)) = []) := by
  intro fs
  induction fs with
  | nil =>
    simp [referencePkLoop]
  | cons g rest ih =>
    by_cases h : g.uniqueness = UniqueType.PRIMARY_KEY
    · simp [referencePkLoop, h]
    · simp [referencePkLoop, h, ih]

theorem referencePkLoop_ok_none (nm : String) (f : Field) :
    ∀ fs : List Field, referencePkLoop nm fs none = .ok f ↔
      fs.filter (fun g => decide (g.uniqueness = UniqueType.PRIMARY_KEY)) = [f] := by
  intro fs
  induction fs with
  | nil => simp [referencePkLoop]
  | cons g rest ih =>
    by_cases h : g.uniqueness = UniqueType.PRIMARY_KEY
    · have h1 : referencePkLoop nm (g :: rest) none = referencePkLoop nm rest (some g) := by
        simp [referencePkLoop, h]
      rw [h1, referencePkLoop_ok_some]
      simp [List.filter_cons, h]
    · simp [referencePkLoop, h, ih]

theorem get_reference_pk_ok_iff (t : Table) (f : Field) :
    t.get_reference_pk = .ok f ↔
      ((∀ cu ∈ t.complex_uniqueness, cu.uniqueness ≠ UniqueType.PRIMARY_KEY) ∧
       t.fields.filter (fun g => decide (g.uniqueness = UniqueType.PRIMARY_KEY)) = [f]) := by
  unfold Table.get_reference_pk
  by_cases h : t.complex_uniqueness.any
      (fun cu => decide (cu.uniqueness = UniqueType.PRIMARY_KEY)) = true
  · rw [if_pos h]
    have hcu : ¬ ∀ cu ∈ t.complex_uniqueness, cu.uniqueness ≠ UniqueType.PRIMARY_KEY := by
      simpa [List.any_eq_true] using h
    constructor
    · intro hc; simp at hc
    · rintro ⟨hcu', -⟩; exact absurd hcu' hcu
  · rw [if_neg h]
    have hcu : ∀ cu ∈ t.complex_uniqueness, cu.uniqueness ≠ UniqueType.PRIMARY_KEY := by
      simpa [List.any_eq_true] using h
    rw [referencePkLoop_ok_none]
    simp only [ne_eq, iff_and_self]
    exact fun _ => hcu

/-- C2: `get_reference_pk` returns a field exactly when the table has no
composite primary-key rule and exactly one primary-key field, in which
case it returns that field; in every other case it returns a
schema-definition error. -/
theorem C2_get_reference_pk_spec :
    ∀ t : Table,
      (∀ f : Field, t.get_reference_pk = .ok f ↔
        ((∀ cu ∈ t.complex_uniqueness, cu.uniqueness ≠ UniqueType.PRIMARY_KEY) ∧
         t.fields.filter (fun g => decide (g.uniqueness = UniqueType.PRIMARY_KEY)) = [f])) ∧
      ((∃ e, t.get_reference_pk = .error e) ↔
        ¬ ((∀ cu ∈ t.complex_uniqueness, cu.uniqueness ≠ UniqueType.PRIMARY_KEY) ∧
           (t.fields.filter (fun g => decide (g.uniqueness = UniqueType.PRIMARY_KEY))).length = 1)) := by
  intro t
  refine ⟨fun f => get_reference_pk_ok_iff t f, ?_⟩
  constructor
  · rintro ⟨e, he⟩ ⟨hcu, hlen⟩
    obtain ⟨f, hf⟩ : ∃ f, t.fields.filter
        (fun g => decide (g.uniqueness = UniqueType.PRIMARY_KEY)) = [f] := by
      match hm : t.fields.filter (fun g => decide (g.uniqueness = UniqueType.PRIMARY_KEY)) with
      | [g] => exact ⟨g, hm⟩
      | [] => rw [hm] at hlen; simp at hlen
      | a :: b :: l => rw [hm] at hlen; simp at hlen
    have hok := (get_reference_pk_ok_iff t f).mpr ⟨hcu, hf⟩
    rw [hok] at he
    exact Except.noConfusion he
  · intro hnot
    match hres : t.get_reference_pk with
    | .error e => exact ⟨e, rfl⟩
    | .ok f =>
      obtain ⟨hcu, hfil⟩ := (get_reference_pk_ok_iff t f).mp hres
      exact absurd ⟨hcu, by simp [hfil]⟩ hnot

/-- C5: loading `role: {id: "pk uuid"}` and `user: {role_id: "fk role?"}`
and finalizing yields `user.role_id` with type `uuid`, a foreign key with
on-delete = set-null, and the exact claimed ALTER TABLE statement. -/
theorem C5_fk_example_spec :
    dbC5.map (fun db => db.tables.map
        (fun t => (t.full_name, t.fields.map (fun f => (f.name, f.type))))) =
      .ok [("public.role", [("id", "uuid")]), ("public.user", [("role_id", "uuid")])] ∧
    dbC5.map (fun db => db.foreign_keys.map (fun fk => fk.on_delete)) =
      .ok [OnDeleteAction.SET_NULL] ∧
    dbC5.bind (fun db => exceptMapM getForeignKeySql db.foreign_keys) =
      .ok ["ALTER TABLE public.user ADD CONSTRAINT fk_public_user_role_id FOREIGN KEY (role_id) REFERENCES public.role (id) ON DELETE SET NULL;"] := by
  refine ⟨by decide, by decide, by decide⟩

/-- C6 counterexample: a composite-uniqueness rule whose value is the
single string `(a, b)` is not split on commas but rejected with the
rule-format error naming the table and the rule kind. -/
theorem C6_string_rule_value_rejected :
    parseAttribute (initState false) 0 ⟨"public", "t", [], [], []⟩ "$pk" (.str "(a, b)") =
      .error (.badRuleValue "pk" "public.t") := by decide

/-- C6 amended: for a table-body entry whose name matches a
composite-uniqueness rule, a native list value is accepted and appended
as a composite rule of the matched kind, while every string value —
including the `(f1, f2, ...)` form — raises the rule-format error naming
the table and the rule kind; no string splitting occurs. -/
theorem C6_rule_value_spec (st : BuilderState) (idx : Nat) (table : Table)
    (name : String) (value : AttrValue) (u : UniqTok)
    (h : matchUniquenessField name = some u) :
    parseAttribute st idx table name value =
      match value with
      | .list l => .ok ({ table with complex_uniqueness :=
          table.complex_uniqueness ++ [⟨l, uniquenessTextToType (some u)⟩] }, st)
      | .str _ => .error (.badRuleValue u.text table.full_name) := by
  unfold parseAttribute
  rw [h]

/-- C6 witness: a `$uq_x` rule with a native list value, accepted. -/
theorem C6_rule_value_spec_witness :
    parseAttribute (initState false) 0 ⟨"public", "t", [], [], []⟩ "$uq_x"
        (.list ["a", "b"]) =
      .ok (⟨"public", "t", [], [⟨["a", "b"], UniqueType.UNIQUE⟩], []⟩, initState false) :=
  C6_rule_value_spec (initState false) 0 ⟨"public", "t", [], [], []⟩ "$uq_x"
    (.list ["a", "b"]) .uq rfl

/-- C8 counterexample: on the empty finalized Model the emitter returns
`"\n\n"` — the separator joining the two unconditionally appended (empty)
drop and create groups — not the empty string. -/
theorem C8_empty_model_not_empty_string :
    getDbSql defaultConfig ⟨[], [], []⟩ = .ok "\n\n" ∧ ("\n\n" : String) ≠ "" :=
  ⟨by decide, by decide⟩

/-- C8 amended: the conditionally appended groups (per-table comments,
foreign keys, indexes) contribute no separator when empty, but the drop
and create schema groups are appended unconditionally, so the empty Model
renders as `"\n\n"`; a one-table Model with no comments, foreign keys or
indexes renders as exactly the three populated groups with no trailing
separators. -/
theorem C8_empty_groups_spec :
    getDbSql defaultConfig ⟨[], [], []⟩ = .ok "\n\n" ∧
    getDbSql defaultConfig
        ⟨[], [], [⟨"public", "role",
          [⟨"id", .PRIMARY_KEY, "uuid", false, false, none, none⟩], [], []⟩]⟩ =
      .ok "DROP SCHEMA IF EXISTS public CASCADE;\n\nCREATE SCHEMA public;\n\nCREATE TABLE public.role (\n    id uuid NOT NULL PRIMARY KEY\n);" :=
  ⟨by decide, by decide⟩

/-- C9: the emitter is deterministic — rendering one finalized Model
twice (equal inputs, any configuration) produces byte-identical text. -/
theorem C9_emitter_deterministic (cfg : EmitterConfig) (db1 db2 : DbSchema)
    (h : db1 = db2) : getDbSql cfg db1 = getDbSql cfg db2 := by
  rw [h]

/-- C9 witness: two renderings of the empty Model coincide. -/
theorem C9_emitter_deterministic_witness :
    getDbSql defaultConfig ⟨[], [], []⟩ = getDbSql defaultConfig ⟨[], [], []⟩ :=
  C9_emitter_deterministic defaultConfig ⟨[], [], []⟩ ⟨[], [], []⟩ rfl

theorem matchTableKey_none_iff (key : String) :
    matchTableKey key = none ↔ firstIsWord key = false := by
  unfold matchTableKey firstIsWord
  cases hd : key.data with
  | nil => simp
  | cons c cs =>
    simp only [List.takeWhile_cons]
    by_cases hw : isWordChar c = true
    · rw [if_pos hw, hw]
      simp only [List.isEmpty_cons, Bool.false_eq_true, if_false]
      constructor
      · intro h
        exfalso
        revert h
        split
        · split <;> simp
        · simp
      · intro h
        cases h
    · rw [if_neg hw]
      simp only [List.isEmpty_nil, if_true]
      simp [Bool.not_eq_true] at hw
      simp [hw]

theorem parseAttribute_error_kind (st : BuilderState) (i : Nat) (tb : Table)
    (n : String) (v : AttrValue) (e : PLError)
    (h : parseAttribute st i tb n v = .error e) : e.isParseAttrError = true := by
  unfold parseAttribute at h
  repeat' split at h
  all_goals try (cases h)
  all_goals try rfl
  all_goals dsimp only at h
  all_goals repeat' split at h
  all_goals try (cases h)
  all_goals rfl

theorem parseTableLoop_error_kind (i : Nat) :
    ∀ (attrs : List (String × AttrValue)) (tb : Table) (st : BuilderState) (e : PLError),
      parseTableLoop i attrs tb st = .error e → e.isParseAttrError = true := by
  intro attrs
  induction attrs with
  | nil => intro tb st e h; cases h
  | cons a rest ih =>
    intro tb st e h
    unfold parseTableLoop at h
    split at h
    · exact parseAttribute_error_kind _ _ _ _ _ _ (by
        rename_i heq
        injection h with h1
        rw [h1] at heq
        exact heq)
    · exact ih _ _ _ h

theorem parseTable_error_kind (st : BuilderState) (sch nm : String)
    (attrs : List (String × AttrValue)) (e : PLError)
    (h : parseTable st sch nm attrs = .error e) : e.isParseAttrError = true := by
  unfold parseTable at h
  split at h
  · rename_i heq
    injection h with h1
    rw [h1] at heq
    exact parseTableLoop_error_kind _ _ _ _ _ heq
  · cases h

theorem parseSchema_error_kind :
    ∀ (doc : List (String × List (String × AttrValue))) (st : BuilderState) (e : PLError),
      parseSchema st doc = .error e →
        (e.isParseAttrError || e.isBadTableName) = true := by
  intro doc
  induction doc with
  | nil => intro st e h; cases h
  | cons kv rest ih =>
    intro st e h
    unfold parseSchema at h
    split at h
    · exact ih _ _ h
    · split at h
      · injection h with h1
        rw [← h1]
        rfl
      · split at h
        · rename_i heq
          injection h with h1
          rw [h1] at heq
          rw [parseTable_error_kind _ _ _ _ _ heq]
          rfl
        · exact ih _ _ h

/-- C10: a whole-document table key that does not start with `$` is
rejected with the invalid-table-name error exactly when its first
character is not a word character; when the first character is a word
character the key is accepted (the invalid-table-name error can never be
raised), the key is matched only by prefix and trailing text is
discarded: `a.b.c` creates table `b` in schema `a` and `foo-bar` creates
table `foo` in schema `public`. -/
theorem C10_table_key_prefix_spec :
    (∀ (key : String) (data : List (String × AttrValue)) (st : BuilderState),
        startsWithDollar key = false → firstIsWord key = false →
        parseSchema st [(key, data)] = .error (.badTableName key)) ∧
    (∀ (key : String) (data : List (String × AttrValue)) (st : BuilderState)
       (e : PLError),
        startsWithDollar key = false → firstIsWord key = true →
        parseSchema st [(key, data)] = .error e → e.isBadTableName = false) ∧
    (∀ (key : String) (st : BuilderState),
        startsWithDollar key = false → firstIsWord key = true →
        ∃ st' : BuilderState, parseSchema st [(key, [])] = .ok st') ∧
    parseSchema (initState false) [("a.b.c", [])] =
      .ok ⟨false, [], [], [⟨"a", "b", [], [], []⟩]⟩ ∧
    parseSchema (initState false) [("foo-bar", [])] =
      .ok ⟨false, [], [], [⟨"public", "foo", [], [], []⟩]⟩ := by
  refine ⟨?_, ?_, ?_, by decide, by decide⟩
  · intro key data st hd hf
    unfold parseSchema
    rw [hd]
    simp only [Bool.false_eq_true, if_false]
    rw [(matchTableKey_none_iff key).mpr hf]
  · intro key data st e hd hf h
    unfold parseSchema at h
    rw [hd] at h
    simp only [Bool.false_eq_true, if_false] at h
    split at h
    · rename_i heq
      rw [matchTableKey_none_iff key] at heq
      rw [heq] at hf
      cases hf
    · split at h
      · rename_i heq
        injection h with h1
        rw [h1] at heq
        have := parseTable_error_kind _ _ _ _ _ heq
        revert this
        cases e <;> simp [PLError.isParseAttrError, PLError.isBadTableName]
      · cases h
  · intro key st hd hf
    unfold parseSchema
    rw [hd]
    simp only [Bool.false_eq_true, if_false]
    match hm : matchTableKey key with
    | none =>
      rw [matchTableKey_none_iff key] at hm
      rw [hm] at hf
      cases hf
    | some sn =>
      exact ⟨_, rfl⟩

/-- C3: a foreign key referencing a table defined only by a later
`partial_load` resolves at `finalize`; when the target is never defined,
`finalize` fails with the unresolvable-foreign-key error naming the
missing target; and no `partial_load` call can ever raise that error —
it belongs to the resolve step alone. -/
theorem C3_forward_reference_spec :
    ((loadDocs (initState false) [docForwardA, docForwardB]).bind finalize).map
        (fun db => db.foreign_keys.map
          (fun fk => (fk.referenced_table.full_name, fk.field.type))) =
      .ok [("public.b", "uuid")] ∧
    (partialLoad (initState false) docForwardA).map
        (fun st => st.foreign_keys.map
          (fun fk => (fk.referenced_schema, fk.referenced_name))) =
      .ok [("public", "b")] ∧
    (partialLoad (initState false) docForwardA).bind finalize =
      .error (.fkUnresolved "public.a" "public" "b") ∧
    (∀ (st : BuilderState) (doc : List (String × List (String × AttrValue)))
       (e : PLError), partialLoad st doc = .error e → e.isFkUnresolved = false) := by
  refine ⟨by decide, by decide, by decide, ?_⟩
  intro st doc e h
  have hk := parseSchema_error_kind doc st e h
  revert hk
  cases e <;> simp [PLError.isParseAttrError, PLError.isBadTableName, PLError.isFkUnresolved]

/-- C3 witness: a parse error raised by `partial_load` (an unknown
attribute definition) is not the unresolvable-foreign-key error. -/
theorem C3_forward_reference_spec_witness :
    PLError.isFkUnresolved (.unknownAttribute "x" "???") = false :=
  C3_forward_reference_spec.2.2.2 (initState false) [("t", [("x", .str "???")])]
    (.unknownAttribute "x" "???") (by decide)

/-- C4: `_is_mid_in_m2m` returns a pair of endpoints iff exactly two
accumulated foreign keys touch the candidate (as container or target) and
each classifies with code 4 (`MANY_TO_EVERY`) anchored at the candidate;
the endpoints are the two keys' referenced tables.  Composite-uniqueness
rules on the junction play no role: in the worked example the junction
carries a composite-unique rule over both foreign-key fields and is still
detected, so `a`'s connection list holds a many-to-many edge to `b` with
the junction as mid table. -/
theorem C4_junction_detection_spec :
    (∀ (fks : List ResolvedFK) (J a b : Table),
        isMidInM2m fks J = some (a, b) ↔
          ∃ fk1 fk2, fks.filter (fun fk => touches fk J) = [fk1, fk2] ∧
            connCode fk1 J = 4 ∧ connCode fk2 J = 4 ∧
            a = fk1.referenced_table ∧ b = fk2.referenced_table) ∧
    dbJunction.map (fun db => db.tables.map (fun t => t.complex_uniqueness)) =
      .ok [[], [], [⟨["a_id", "b_id"], UniqueType.UNIQUE⟩]] ∧
    dbJunction.map (fun db =>
        match db.tables with
        | ta :: _ =>
          (getConnections db.foreign_keys ta).map
            (fun l => l.map (fun e => (e.1, e.2.1.name, e.2.2.map (fun t => t.name))))
        | [] => none) =
      .ok (some [("><", "b", some "j")]) := by
  refine ⟨?_, by decide, by decide⟩
  intro fks J a b
  unfold isMidInM2m
  constructor
  · intro h
    split at h
    · rename_i fk1 fk2 heq
      split at h
      · rename_i hc
        injection h with h1
        cases h1
        exact ⟨fk1, fk2, heq, hc.1, hc.2, rfl, rfl⟩
      · cases h
    · cases h
  · rintro ⟨fk1, fk2, heq, h1, h2, rfl, rfl⟩
    rw [heq]
    simp only [if_pos (And.intro h1 h2)]

theorem mem_insertByCode (a x : Nat × Table × Option Table) :
    ∀ l, x ∈ insertByCode a l ↔ x = a ∨ x ∈ l := by
  intro l
  induction l with
  | nil => simp [insertByCode]
  | cons b bs ih =>
    by_cases hab : a.1 ≤ b.1
    · simp [insertByCode, hab]
    · simp [insertByCode, hab, ih]
      tauto

theorem pairwise_insertByCode (a : Nat × Table × Option Table) :
    ∀ l, l.Pairwise (fun x y => x.1 ≤ y.1) →
      (insertByCode a l).Pairwise (fun x y => x.1 ≤ y.1) := by
  intro l
  induction l with
  | nil => intro _; simp [insertByCode]
  | cons b bs ih =>
    intro h
    rw [List.pairwise_cons] at h
    by_cases hab : a.1 ≤ b.1
    · simp only [insertByCode, if_pos hab]
      refine List.Pairwise.cons ?_ (List.Pairwise.cons h.1 h.2)
      intro x hx
      rcases List.mem_cons.mp hx with rfl | hx
      · exact hab
      · exact le_trans hab (h.1 x hx)
    · simp only [insertByCode, if_neg hab]
      refine List.Pairwise.cons ?_ (ih h.2)
      intro x hx
      rcases (mem_insertByCode a x bs).mp hx with rfl | hx
      · omega
      · exact h.1 x hx

theorem filter_insertByCode (a : Nat × Table × Option Table) (c : Nat) :
    ∀ l, (insertByCode a l).filter (fun e => decide (e.1 = c)) =
      if a.1 = c then a :: l.filter (fun e => decide (e.1 = c))
      else l.filter (fun e => decide (e.1 = c)) := by
  intro l
  induction l with
  | nil => by_cases hac : a.1 = c <;> simp [insertByCode, hac]
  | cons b bs ih =>
    by_cases hab : a.1 ≤ b.1
    · rw [show insertByCode a (b :: bs) = a :: b :: bs from by simp [insertByCode, hab]]
      by_cases hac : a.1 = c <;> by_cases hbc : b.1 = c <;>
        simp [List.filter_cons, hac, hbc]
    · rw [show insertByCode a (b :: bs) = b :: insertByCode a bs from by
        simp [insertByCode, hab]]
      by_cases hac : a.1 = c
      · have hbc : ¬ b.1 = c := by omega
        simp [List.filter_cons, hac, hbc, ih]
      · by_cases hbc : b.1 = c <;> simp [List.filter_cons, hac, hbc, ih]

theorem sortConnections_pairwise :
    ∀ l, (sortConnections l).Pairwise
      (fun x y : Nat × Table × Option Table => x.1 ≤ y.1) := by
  intro l
  induction l with
  | nil => simp [sortConnections]
  | cons a as ih => exact pairwise_insertByCode a _ ih

theorem sortConnections_filter (c : Nat) :
    ∀ l, (sortConnections l).filter
        (fun e : Nat × Table × Option Table => decide (e.1 = c)) =
      l.filter (fun e => decide (e.1 = c)) := by
  intro l
  induction l with
  | nil => rfl
  | cons a as ih =>
    by_cases hac : a.1 = c <;>
      simp [sortConnections, filter_insertByCode, hac, List.filter_cons, ih]

/-- C7: whenever the discovery pass succeeds, `get_connections` returns
the discovered edges stably sorted by ascending numeric classification
code — sorted (pairwise nondecreasing codes) while every code class keeps
its discovery order — with each entry exposing the display symbol
obtained from its code through `CONNECTION_ORDER_TO_SYMBOL` =
`o-, oo, -o, oo, >-, >o, -<, o<` for codes 0..7 and `><` for
many-to-many, together with the target table and the optional mid
table. -/
theorem C7_connections_sorted_spec :
    ∀ (fks : List ResolvedFK) (table : Table)
      (disc : List (Nat × Table × Option Table)),
      discoverConnections fks table fks = some disc →
      getConnections fks table =
        some ((sortConnections disc).map
          (fun e => (CONNECTION_ORDER_TO_SYMBOL.getD e.1 "", e.2.1, e.2.2))) ∧
      (sortConnections disc).Pairwise (fun x y => x.1 ≤ y.1) ∧
      (∀ c : Nat, (sortConnections disc).filter (fun e => decide (e.1 = c)) =
        disc.filter (fun e => decide (e.1 = c))) ∧
      CONNECTION_ORDER_TO_SYMBOL =
        ["o-", "oo", "-o", "oo", ">-", ">o", "-<", "o<", "><"] := by
  intro fks table disc h
  refine ⟨?_, sortConnections_pairwise _, fun c => sortConnections_filter c _, rfl⟩
  unfold getConnections
  rw [h]

/-- C7 witness: the single `every-to-many` edge of the fixture pair. -/
theorem C7_connections_sorted_spec_witness :
    getConnections [fkBA] tblA =
      some ((sortConnections [(6, tblB, none)]).map
        (fun e => (CONNECTION_ORDER_TO_SYMBOL.getD e.1 "", e.2.1, e.2.2))) ∧
    (sortConnections [(6, tblB, none)]).Pairwise (fun x y => x.1 ≤ y.1) ∧
    (∀ c : Nat, (sortConnections [(6, tblB, none)]).filter
        (fun e => decide (e.1 = c)) =
      [(6, tblB, none)].filter (fun e => decide (e.1 = c))) ∧
    CONNECTION_ORDER_TO_SYMBOL =
      ["o-", "oo", "-o", "oo", ">-", ">o", "-<", "o<", "><"] :=
  C7_connections_sorted_spec [fkBA] tblA [(6, tblB, none)] (by decide)

theorem modifyNth_get? {α : Type} (f : α → α) :
    ∀ (n k : Nat) (l : List α),
      (modifyNth f n l).get? k = if k = n then (l.get? k).map f else l.get? k := by
  intro n k l
  induction l generalizing n k with
  | nil => simp [modifyNth]
  | cons a as ih =>
    cases n with
    | zero =>
      cases k with
      | zero => simp [modifyNth]
      | succ k => simp [modifyNth]
    | succ n =>
      cases k with
      | zero => simp [modifyNth]
      | succ k => simpa [modifyNth] using ih n k

theorem modifyNth_nil {α : Type} (f : α → α) (n : Nat) :
    modifyNth f n ([] : List α) = [] := by
  cases n <;> rfl

theorem length_modifyNth {α : Type} (f : α → α) :
    ∀ (n : Nat) (l : List α), (modifyNth f n l).length = l.length := by
  intro n l
  induction l generalizing n with
  | nil => rw [modifyNth_nil]
  | cons a as ih =>
    cases n with
    | zero => rfl
    | succ n => simpa [modifyNth] using ih n

theorem length_setFieldType (tables : List Table) (ti fi : Nat) (ty : String) :
    (setFieldType tables ti fi ty).length = tables.length :=
  length_modifyNth _ _ _

theorem tableAt_setFieldType (tables : List Table) (ti fi : Nat) (ty : String) (k : Nat) :
    tableAt (setFieldType tables ti fi ty) k =
      if k = ti then
        { tableAt tables k with
          fields := modifyNth (fun f => { f with type := ty }) fi (tableAt tables k).fields }
      else tableAt tables k := by
  unfold tableAt setFieldType
  rw [modifyNth_get?]
  by_cases hk : k = ti
  · rw [if_pos hk, if_pos hk]
    cases tables.get? k with
    | none => simp [dummyTable, modifyNth_nil]
    | some t => rfl
  · rw [if_neg hk, if_neg hk]

theorem setFieldType_pg_schema (tables : List Table) (ti fi : Nat) (ty : String) (k : Nat) :
    (tableAt (setFieldType tables ti fi ty) k).pg_schema = (tableAt tables k).pg_schema := by
  rw [tableAt_setFieldType]; split <;> rfl

theorem setFieldType_name (tables : List Table) (ti fi : Nat) (ty : String) (k : Nat) :
    (tableAt (setFieldType tables ti fi ty) k).name = (tableAt tables k).name := by
  rw [tableAt_setFieldType]; split <;> rfl

theorem setFieldType_cu (tables : List Table) (ti fi : Nat) (ty : String) (k : Nat) :
    (tableAt (setFieldType tables ti fi ty) k).complex_uniqueness =
      (tableAt tables k).complex_uniqueness := by
  rw [tableAt_setFieldType]; split <;> rfl

theorem setFieldType_fields_length (tables : List Table) (ti fi : Nat) (ty : String) (k : Nat) :
    (tableAt (setFieldType tables ti fi ty) k).fields.length =
      (tableAt tables k).fields.length := by
  rw [tableAt_setFieldType]
  split
  · simp [length_modifyNth]
  · rfl

theorem fieldAt_setFieldType (tables : List Table) (ti fi : Nat) (ty : String) (k j : Nat) :
    fieldAt (tableAt (setFieldType tables ti fi ty) k) j =
      if k = ti ∧ j = fi then
        (((tableAt tables k).fields.get? j).map (fun f => { f with type := ty })).getD dummyField
      else fieldAt (tableAt tables k) j := by
  rw [tableAt_setFieldType]
  by_cases hk : k = ti
  · rw [if_pos hk]
    unfold fieldAt
    simp only
    rw [modifyNth_get?]
    by_cases hj : j = fi
    · rw [if_pos hj, if_pos ⟨hk, hj⟩]
    · rw [if_neg hj, if_neg (by tauto)]
  · rw [if_neg hk, if_neg (by tauto)]

theorem uniqAt_setFieldType (tables : List Table) (ti fi : Nat) (ty : String) (k j : Nat) :
    (fieldAt (tableAt (setFieldType tables ti fi ty) k) j).uniqueness =
      (fieldAt (tableAt tables k) j).uniqueness := by
  rw [fieldAt_setFieldType]
  split
  · rename_i hkj
    unfold fieldAt
    rw [hkj.1]
    cases (tableAt tables ti).fields.get? j with
    | none => rfl
    | some f => rfl
  · rfl

theorem typeAt_setFieldType_self (tables : List Table) (ti fi : Nat) (ty : String)
    (hfi : fi < (tableAt tables ti).fields.length) :
    (fieldAt (tableAt (setFieldType tables ti fi ty) ti) fi).type = ty := by
  rw [fieldAt_setFieldType, if_pos ⟨rfl, rfl⟩]
  obtain ⟨f, hf⟩ : ∃ f, (tableAt tables ti).fields.get? fi = some f := by
    rw [List.get?_eq_get hfi]
    exact ⟨_, rfl⟩
  rw [hf]
  rfl

theorem typeAt_setFieldType_other (tables : List Table) (ti fi : Nat) (ty : String)
    (k j : Nat) (h : (k, j) ≠ (ti, fi)) :
    (fieldAt (tableAt (setFieldType tables ti fi ty) k) j).type =
      (fieldAt (tableAt tables k) j).type := by
  rw [fieldAt_setFieldType, if_neg (by simpa [Prod.ext_iff] using h)]

theorem filter_pk_modifyNth (ty : String) :
    ∀ (fields : List Field) (fi : Nat),
      ((fields.get? fi).getD dummyField).uniqueness ≠ UniqueType.PRIMARY_KEY →
      (modifyNth (fun f => { f with type := ty }) fi fields).filter
          (fun g => decide (g.uniqueness = UniqueType.PRIMARY_KEY)) =
        fields.filter (fun g => decide (g.uniqueness = UniqueType.PRIMARY_KEY)) := by
  intro fields
  induction fields with
  | nil => intro fi _; rw [modifyNth_nil]
  | cons a as ih =>
    intro fi h
    cases fi with
    | zero =>
      have ha : ¬ a.uniqueness = UniqueType.PRIMARY_KEY := by simpa using h
      simp [modifyNth, List.filter_cons, ha]
    | succ fi =>
      have h' := ih fi (by simpa using h)
      simp [modifyNth, List.filter_cons, h']

theorem filterPk_setFieldType (tables : List Table) (ti fi : Nat) (ty : String)
    (h : (fieldAt (tableAt tables ti) fi).uniqueness ≠ UniqueType.PRIMARY_KEY) (k : Nat) :
    (tableAt (setFieldType tables ti fi ty) k).fields.filter
        (fun g => decide (g.uniqueness = UniqueType.PRIMARY_KEY)) =
      (tableAt tables k).fields.filter
        (fun g => decide (g.uniqueness = UniqueType.PRIMARY_KEY)) := by
  rw [tableAt_setFieldType]
  split
  · rename_i hk
    subst hk
    exact filter_pk_modifyNth ty (tableAt tables k).fields fi h
  · rfl

theorem SameShape_refl (t : List Table) : SameShape t t :=
  ⟨rfl, fun _ => ⟨rfl, rfl, rfl, rfl, fun _ => rfl⟩⟩

theorem SameShape_trans {t1 t2 t3 : List Table}
    (h12 : SameShape t1 t2) (h23 : SameShape t2 t3) : SameShape t1 t3 := by
  obtain ⟨hl12, hk12⟩ := h12
  obtain ⟨hl23, hk23⟩ := h23
  refine ⟨hl23.trans hl12, fun k => ?_⟩
  obtain ⟨a1, a2, a3, a4, a5⟩ := hk12 k
  obtain ⟨b1, b2, b3, b4, b5⟩ := hk23 k
  exact ⟨b1.trans a1, b2.trans a2, b3.trans a3, b4.trans a4,
    fun j => (b5 j).trans (a5 j)⟩

theorem SameShape_setFieldType (tables : List Table) (ti fi : Nat) (ty : String) :
    SameShape tables (setFieldType tables ti fi ty) :=
  ⟨length_setFieldType tables ti fi ty, fun k =>
    ⟨setFieldType_pg_schema tables ti fi ty k, setFieldType_name tables ti fi ty k,
     setFieldType_cu tables ti fi ty k, setFieldType_fields_length tables ti fi ty k,
     fun j => uniqAt_setFieldType tables ti fi ty k j⟩⟩

theorem tableAt_cons_succ (t : Table) (rest : List Table) (k : Nat) :
    tableAt (t :: rest) (k + 1) = tableAt rest k := rfl

theorem findTableFrom_eq_some_iff (s n : String) :
    ∀ (tables : List Table) (base i : Nat) (ti : Table),
      findTableFrom s n base tables = some (i, ti) ↔
        ∃ k, i = base + k ∧ k < tables.length ∧ tableAt tables k = ti ∧
          (tableAt tables k).pg_schema = s ∧ (tableAt tables k).name = n ∧
          ∀ m, m < k → ¬ ((tableAt tables m).pg_schema = s ∧ (tableAt tables m).name = n) := by
  intro tables
  induction tables with
  | nil =>
    intro base i ti
    constructor
    · intro h; cases h
    · rintro ⟨k, -, hk, -⟩; simp at hk
  | cons t rest ih =>
    intro base i ti
    unfold findTableFrom
    by_cases hp : t.pg_schema = s ∧ t.name = n
    · rw [if_pos hp]
      constructor
      · intro h
        injection h with h1
        injection h1 with h1 h2
        exact ⟨0, by omega, by simp, h2, hp.1, hp.2, by omega⟩
      · rintro ⟨k, hik, hklen, hat, hsch, hnm, hmin⟩
        cases k with
        | zero =>
          rw [← hat]
          have hib : i = base := by omega
          rw [hib]
          rfl
        | succ k =>
          exact absurd ⟨hp.1, hp.2⟩ (hmin 0 (by omega))
    · rw [if_neg hp]
      rw [ih (base + 1) i ti]
      constructor
      · rintro ⟨k, hik, hklen, hat, hsch, hnm, hmin⟩
        refine ⟨k + 1, by omega, by simpa using hklen, hat, hsch, hnm, ?_⟩
        intro m hm
        cases m with
        | zero => exact hp
        | succ m => exact hmin m (by omega)
      · rintro ⟨k, hik, hklen, hat, hsch, hnm, hmin⟩
        cases k with
        | zero =>
          exact absurd ⟨hsch, hnm⟩ hp
        | succ k =>
          refine ⟨k, by omega, by simpa using hklen, hat, hsch, hnm, ?_⟩
          intro m hm
          exact hmin (m + 1) (by omega)

theorem findTable_eq_some_iff (tables : List Table) (s n : String) (i : Nat) (ti : Table) :
    findTable tables s n = some (i, ti) ↔
      (i < tables.length ∧ tableAt tables i = ti ∧
       (tableAt tables i).pg_schema = s ∧ (tableAt tables i).name = n ∧
       ∀ m, m < i → ¬ ((tableAt tables m).pg_schema = s ∧ (tableAt tables m).name = n)) := by
  unfold findTable
  rw [findTableFrom_eq_some_iff]
  constructor
  · rintro ⟨k, hik, h⟩
    have : i = k := by omega
    subst this
    exact h
  · intro h
    exact ⟨i, by omega, h⟩

theorem get_reference_pk_congr (t t' : Table)
    (hcu : t'.complex_uniqueness = t.complex_uniqueness)
    (hfil : t'.fields.filter (fun g => decide (g.uniqueness = UniqueType.PRIMARY_KEY)) =
      t.fields.filter (fun g => decide (g.uniqueness = UniqueType.PRIMARY_KEY)))
    (pk : Field) (h : t.get_reference_pk = .ok pk) : t'.get_reference_pk = .ok pk := by
  obtain ⟨h1, h2⟩ := (get_reference_pk_ok_iff t pk).mp h
  refine (get_reference_pk_ok_iff t' pk).mpr ⟨?_, by rw [hfil]; exact h2⟩
  intro cu hmem
  exact h1 cu (by rw [← hcu]; exact hmem)

theorem resolveAll_spec :
    ∀ (fks : List FKRef) (tables tf : List Table) (acc : List (FKRef × Nat)),
      resolveAll tables fks = .ok (tf, acc) →
      fksInRange tables fks →
      fksDistinctFields fks →
      SameShape tables tf ∧
      (∀ p : Nat × Nat, (∀ fk ∈ fks, fkPos fk ≠ p) →
        (fieldAt (tableAt tf p.1) p.2).type = (fieldAt (tableAt tables p.1) p.2).type) ∧
      (∀ pr ∈ acc, findTable tf pr.1.referenced_schema pr.1.referenced_name =
        some (pr.2, tableAt tf pr.2)) ∧
      (noPkFkFields tables fks →
        (∀ k, (tableAt tf k).fields.filter
            (fun g => decide (g.uniqueness = UniqueType.PRIMARY_KEY)) =
          (tableAt tables k).fields.filter
            (fun g => decide (g.uniqueness = UniqueType.PRIMARY_KEY))) ∧
        (∀ pr ∈ acc, ∃ pk, (tableAt tf pr.2).get_reference_pk = .ok pk ∧
          (fieldAt (tableAt tf pr.1.containing_table) pr.1.field_index).type = pk.type)) := by
  intro fks
  induction fks with
  | nil =>
    intro tables tf acc hres hrange hdist
    unfold resolveAll at hres
    injection hres with h1
    injection h1 with htf hacc
    subst htf
    subst hacc
    exact ⟨SameShape_refl _, fun p _ => rfl, by simp, fun _ => ⟨fun k => rfl, by simp⟩⟩
  | cons fk rest ih =>
    intro tables tf acc hres hrange hdist
    unfold resolveAll at hres
    split at hres
    · cases hres
    · rename_i it heq
      split at hres
      · cases hres
      · rename_i pk hpk
        split at hres
        · cases hres
        · rename_i ta hrec
          injection hres with h1
          injection h1 with htf hacc
          subst htf
          subst hacc
          obtain ⟨hilen, hiat, hisch, hinm, himin⟩ :=
            (findTable_eq_some_iff tables fk.referenced_schema fk.referenced_name
              it.1 it.2).mp heq
          obtain ⟨hctlen, hfilen⟩ := hrange fk (List.mem_cons_self fk rest)
          have hshape1 : SameShape tables
              (setFieldType tables fk.containing_table fk.field_index pk.type) :=
            SameShape_setFieldType tables fk.containing_table fk.field_index pk.type
          have hrange1 : fksInRange
              (setFieldType tables fk.containing_table fk.field_index pk.type) rest := by
            intro fk1 hmem
            obtain ⟨h1, h2⟩ := hrange fk1 (List.mem_cons_of_mem fk hmem)
            constructor
            · rw [length_setFieldType]; exact h1
            · rw [setFieldType_fields_length]; exact h2
          have hdist1 : fksDistinctFields rest := (List.pairwise_cons.mp hdist).2
          have hheadTail : ∀ fk1 ∈ rest, fkPos fk ≠ fkPos fk1 :=
            (List.pairwise_cons.mp hdist).1
          obtain ⟨ihShape, ihType, ihFind, ihNoPk⟩ :=
            ih (setFieldType tables fk.containing_table fk.field_index pk.type)
              ta.1 ta.2 hrec hrange1 hdist1
          have hshapeAll : SameShape tables ta.1 := SameShape_trans hshape1 ihShape
          refine ⟨hshapeAll, ?_, ?_, ?_⟩
          · intro p hp
            have hrestp : ∀ fk1 ∈ rest, fkPos fk1 ≠ p :=
              fun fk1 hm => hp fk1 (List.mem_cons_of_mem fk hm)
            rw [ihType p hrestp]
            refine typeAt_setFieldType_other tables fk.containing_table fk.field_index
              pk.type p.1 p.2 ?_
            have hne := Ne.symm (hp fk (List.mem_cons_self fk rest))
            simpa [fkPos] using hne
          · intro pr hpr
            rcases List.mem_cons.mp hpr with rfl | hpr1
            · refine (findTable_eq_some_iff ta.1 fk.referenced_schema fk.referenced_name
                it.1 (tableAt ta.1 it.1)).mpr ⟨?_, rfl, ?_, ?_, ?_⟩
              · rw [hshapeAll.1]; exact hilen
              · rw [(hshapeAll.2 it.1).1]; exact hisch
              · rw [(hshapeAll.2 it.1).2.1]; exact hinm
              · intro m hm hcon
                obtain ⟨hc1, hc2⟩ := hcon
                rw [(hshapeAll.2 m).1] at hc1
                rw [(hshapeAll.2 m).2.1] at hc2
                exact himin m hm ⟨hc1, hc2⟩
            · exact ihFind pr hpr1
          · intro hnopk
            have hnopkHead : (fieldAt (tableAt tables fk.containing_table)
                fk.field_index).uniqueness ≠ UniqueType.PRIMARY_KEY :=
              hnopk fk (List.mem_cons_self fk rest)
            have hnopk1 : noPkFkFields
                (setFieldType tables fk.containing_table fk.field_index pk.type) rest := by
              intro fk1 hm
              rw [uniqAt_setFieldType]
              exact hnopk fk1 (List.mem_cons_of_mem fk hm)
            obtain ⟨ihFilter, ihRes⟩ := ihNoPk hnopk1
            have hfilterAll : ∀ k, (tableAt ta.1 k).fields.filter
                (fun g => decide (g.uniqueness = UniqueType.PRIMARY_KEY)) =
              (tableAt tables k).fields.filter
                (fun g => decide (g.uniqueness = UniqueType.PRIMARY_KEY)) :=
              fun k => (ihFilter k).trans
                (filterPk_setFieldType tables fk.containing_table fk.field_index
                  pk.type hnopkHead k)
            refine ⟨hfilterAll, ?_⟩
            intro pr hpr
            rcases List.mem_cons.mp hpr with rfl | hpr1
            · refine ⟨pk, ?_, ?_⟩
              · refine get_reference_pk_congr (tableAt tables it.1) (tableAt ta.1 it.1)
                  (hshapeAll.2 it.1).2.2.1 (hfilterAll it.1) pk ?_
                rw [hiat]
                exact hpk
              · have h1 : ∀ fk1 ∈ rest,
                    fkPos fk1 ≠ (fk.containing_table, fk.field_index) :=
                  fun fk1 hm => Ne.symm (hheadTail fk1 hm)
                have h2 := ihType (fk.containing_table, fk.field_index) h1
                exact h2.trans (typeAt_setFieldType_self tables fk.containing_table
                  fk.field_index pk.type hfilen)
            · exact ihRes pr hpr1

/-- C1 counterexample: in the chained document (`c.x: fk a`,
`a.id: pk fk b`, `b.id: pk uuid`) `finalize` succeeds, yet foreign key
`c.x` keeps the empty placeholder type because it was resolved while
`a`'s primary-key field — itself foreign-key backed — still had the empty
type; the referenced table's reference primary key ends with type
`uuid`. -/
theorem C1_chained_type_counterexample :
    dbChained.map (fun db => db.foreign_keys.map
      (fun fk => (fk.containing_table.full_name, fk.field.type,
        fk.referenced_table.get_reference_pk.map (fun pk => pk.type)))) =
      .ok [("public.c", "", .ok "uuid"), ("public.a", "uuid", .ok "uuid")] ∧
    ("" : String) ≠ "uuid" := ⟨by decide, by decide⟩

/-- C1 amended: after `finalize` succeeds on a well-formed builder state
(indices in range, one backing field per foreign key), every resolved
foreign key's `referenced_table` is the first loaded table matching its
(schema, name) key; and provided no foreign key's backing field itself
carries primary-key uniqueness, every foreign key's backing field type
equals the referenced table's reference primary-key field's type
exactly. -/
theorem C1_resolution_spec :
    ∀ (st : BuilderState) (db : DbSchema),
      finalize st = .ok db →
      fksInRange st.tables st.foreign_keys →
      fksDistinctFields st.foreign_keys →
      (∀ rfk ∈ db.foreign_keys, ∃ i,
        findTable db.tables rfk.referenced_schema rfk.referenced_name =
          some (i, rfk.referenced_table)) ∧
      (noPkFkFields st.tables st.foreign_keys →
        ∀ rfk ∈ db.foreign_keys, ∃ pk,
          rfk.referenced_table.get_reference_pk = .ok pk ∧ rfk.field.type = pk.type) := by
  intro st db hfin hrange hdist
  unfold finalize at hfin
  split at hfin
  · cases hfin
  · rename_i ta hres
    injection hfin with h1
    subst h1
    obtain ⟨-, -, hfind, hnopkC⟩ :=
      resolveAll_spec st.foreign_keys st.tables ta.1 ta.2 hres hrange hdist
    constructor
    · intro rfk hm
      simp only [List.mem_map] at hm
      obtain ⟨pr, hpr, rfl⟩ := hm
      exact ⟨pr.2, hfind pr hpr⟩
    · intro hnopk rfk hm
      simp only [List.mem_map] at hm
      obtain ⟨pr, hpr, rfl⟩ := hm
      obtain ⟨pk, hpk, hty⟩ := (hnopkC hnopk).2 pr hpr
      exact ⟨pk, hpk, hty⟩

/-- C1 witness: the fixture state (`a` with a `uuid` primary key, `b`
with one pending foreign key to it) finalizes into `dbWitness`, where
the resolved link and the propagated type are as the amended claim
states. -/
theorem C1_resolution_spec_witness :
    (∀ rfk ∈ dbWitness.foreign_keys, ∃ i,
      findTable dbWitness.tables rfk.referenced_schema rfk.referenced_name =
        some (i, rfk.referenced_table)) ∧
    (noPkFkFields stWitness.tables stWitness.foreign_keys →
      ∀ rfk ∈ dbWitness.foreign_keys, ∃ pk,
        rfk.referenced_table.get_reference_pk = .ok pk ∧ rfk.field.type = pk.type) :=
  C1_resolution_spec stWitness dbWitness (by decide)
    (by unfold fksInRange; decide) (by unfold fksDistinctFields; decide)

end PureLogic
